import Mathlib

set_option maxRecDepth 200000
set_option maxHeartbeats 1000000

/-!
Shallow embedding of the `local-network-scan` library (src/src/index.ts,
src/src/models.ts and the platform ARP-table reader) together with theorems
settling the specification claims about it.

JavaScript-level behaviour is modelled explicitly:
* optional fields of `ScanOptions` become `Option` fields; JS truthiness of a
  string is "non-empty", of a number is "non-zero", of `undefined` is false;
* `x || d` on numbers becomes `jsOr`;
* `String.prototype.split`, `trim`, `startsWith` and global single-character
  `replace` are re-implemented structurally on `String.data`;
* the template literal rendering of a loop index is `natToString`, a canonical
  base-10 rendering of a natural number;
* promises are deterministic values; the environment (`ScanEnv`) decides the
  outcome of every collaborator call (reachability probe, race timeout,
  `arp` process output, vendor HTTP lookup);
* a thrown exception becomes `Except.error`.
-/

namespace LocalNetworkScan

/-! ### JavaScript string primitives -/

/-- JS whitespace characters relevant to `String.prototype.trim`. -/
def isJsWhitespace (c : Char) : Bool :=
  c = ' ' || c = '\t' || c = '\n' || c = '\r' || c = '\x0b' || c = '\x0c'

/-- JS `String.prototype.trim`: strip whitespace from both ends. -/
def jsTrim (s : String) : String :=
  String.mk (((s.data.dropWhile isJsWhitespace).reverse.dropWhile isJsWhitespace).reverse)

/-- Helper for `jsSplitSep`, walking the character list. -/
def jsSplitSepAux (sep : Char) : List Char → List Char → List String
  | [], cur => [String.mk cur.reverse]
  | c :: cs, cur =>
    if c = sep then String.mk cur.reverse :: jsSplitSepAux sep cs []
    else jsSplitSepAux sep cs (c :: cur)

/-- JS `String.prototype.split` with a one-character separator;
`"".split(sep)` gives `[""]` and empty segments are kept, as in JS. -/
def jsSplitSep (sep : Char) (s : String) : List String :=
  jsSplitSepAux sep s.data []

/-- Helper for `jsSplitStr`; fuel-driven so that it is structural. -/
def jsSplitStrAux (sep : List Char) : Nat → List Char → List Char → List String
  | 0, rest, cur => [String.mk (cur.reverse ++ rest)]
  | _ + 1, [], cur => [String.mk cur.reverse]
  | fuel + 1, c :: cs, cur =>
    if sep.isPrefixOf (c :: cs) then
      String.mk cur.reverse :: jsSplitStrAux sep fuel ((c :: cs).drop sep.length) []
    else jsSplitStrAux sep fuel cs (c :: cur)

/-- JS `String.prototype.split` with a (non-empty) multi-character separator. -/
def jsSplitStr (sep : String) (s : String) : List String :=
  jsSplitStrAux sep.data (s.data.length + 1) s.data []

/-- JS `String.prototype.startsWith`. -/
def jsStartsWith (s pre : String) : Bool :=
  pre.data.isPrefixOf s.data

/-- JS global one-character `String.prototype.replace(c, '')`: delete every
occurrence of the character. -/
def removeAllChar (c : Char) (s : String) : String :=
  String.mk (s.data.filter (fun x => x ≠ c))

/-- The decimal digit character for `d < 10`. -/
def digitChar (d : Nat) : Char := Char.ofNat (48 + d)

/-- Fuel-driven canonical base-10 digit list of `n` (empty for `0`). -/
def natToStringAux : Nat → Nat → List Char
  | 0, _ => []
  | fuel + 1, n =>
    if n = 0 then [] else natToStringAux fuel (n / 10) ++ [digitChar (n % 10)]

/-- JS number-to-string conversion for a natural number (template literal
rendering of the loop index). -/
def natToString (n : Nat) : String :=
  if n = 0 then "0" else String.mk (natToStringAux n n)

/-- JS `x || d` for an optional number: `undefined` and `0` fall back to `d`. -/
def jsOr (o : Option Nat) (d : Nat) : Nat :=
  match o with
  | none => d
  | some n => if n = 0 then d else n

/-! ### JS `Map` on string keys, as an association list in insertion order -/

/-- `Map.prototype.get`. -/
def mapGet (m : List (String × String)) (k : String) : Option String :=
  (m.find? (fun p => p.1 == k)).map Prod.snd

/-- `Map.prototype.set`: overwrite in place if the key exists, else append. -/
def mapSet (m : List (String × String)) (k v : String) : List (String × String) :=
  if m.any (fun p => p.1 == k) then
    m.map (fun p => if p.1 == k then (k, v) else p)
  else m ++ [(k, v)]

/-! ### Data model (src/src/models.ts) -/

/-- A device in the network (`NetworkDevice` of models.ts); `mac` and `vendor`
are optional fields. -/
structure NetworkDevice where
  ip : String
  mac : Option String
  vendor : Option String
  deriving DecidableEq, Repr

/-- Scan options (`ScanOptions` of models.ts); all fields optional in the
TypeScript interface.  The side-effect-only `logger` field is omitted from
the model. -/
structure ScanOptions where
  localNetwork : Option String
  queryVendor : Option Bool
  pingTimeoutMS : Option Nat
  queryVendorsTimeoutMS : Option Nat
  beachesSize : Option Nat
  clearVendorsCache : Option Bool
  deriving DecidableEq, Repr

/-- Options record with every field `undefined` (`scanLocalNetwork(options = {})`). -/
def emptyOptions : ScanOptions :=
  ⟨none, none, none, none, none, none⟩

/-- The module-level `vendorsCache` `Map<string, string>`. -/
abbrev VendorsCache := List (String × String)

/-! ### Collaborator environment -/

/-- Outcome of one reachability-probe invocation as observed by `pingDevice`:
the probe resolves alive, resolves not-alive, or rejects. -/
inductive ProbeOutcome where
  | alive
  | notAlive
  | probeError
  deriving DecidableEq, Repr

/-- Outcome of one vendor HTTP lookup: a response whose body optionally holds
`result.company`, or any failure (network error, bad status, thrown). -/
inductive LookupResult where
  | success (company : Option String)
  | failure
  deriving DecidableEq, Repr

/-- Deterministic model of all external collaborators for one scan:
`probe ip t` is the result of `ping.promise.probe(ip, { timeout: … })` where
`t` is that timeout option expressed in milliseconds (the probe library
takes seconds; the model uses milliseconds uniformly, so the source's `0.5`
is `500`), `raceTimesOut ip` says whether the `promise-timeout` race
for that address fires before the probe settles, `platformWin` selects the
ARP parser, `arpOutput` is the `spawn('arp', …)` result, and `lookup mac` is
the vendor HTTP call. -/
structure ScanEnv where
  machineIp : String
  probe : String → Nat → ProbeOutcome
  raceTimesOut : String → Bool
  platformWin : Bool
  arpOutput : Except String String
  lookup : String → LookupResult

/-! ### src/src/index.ts -/

/-- `getNetworkAddress`: validate a supplied prefix (truthy string with exactly
3 dot-separated components) or derive one from the machine's own IP by
dropping the last of its 4 components. -/
def getNetworkAddress (machineIp : String) (localNetwork : Option String) :
    Except String String :=
  if localNetwork.getD "" ≠ "" then
    let ln := localNetwork.getD ""
    if (jsSplitSep '.' ln).length = 3 then Except.ok ln
    else Except.error "localNetwork should be xxx.xxx.xxx"
  else
    let machineIpParts := jsSplitSep '.' machineIp
    if machineIpParts.length ≠ 4 then
      Except.error "Machine do not own IP address, have to pass localNetwork option"
    else
      Except.ok (String.intercalate "." machineIpParts.dropLast)

/-- `getVendor`: returns the vendor string, the cache after the call, and the
number of remote lookups performed (0 or 1).  On a hit the cached value is
returned; on a miss the remote collaborator is invoked; a successful body
stores and returns `result.company || ''`; on failure the `catch` block
returns `''` **without touching the cache**. -/
def getVendor (lookup : String → LookupResult) (cache : VendorsCache)
    (mac : String) : String × VendorsCache × Nat :=
  match mapGet cache mac with
  | some v => (v, cache, 0)
  | none =>
    match lookup mac with
    | LookupResult.success company =>
        (company.getD "", mapSet cache mac (company.getD ""), 1)
    | LookupResult.failure => ("", cache, 1)

/-- The hard-coded probe option of `pingDevice`:
`ping.promise.probe(ip, { timeout: 0.5 })` — 0.5 seconds, expressed here in
milliseconds. -/
def pingProbeTimeoutMS : Nat := 500

/-- One recorded probe invocation: the address, the `timeout` option passed to
the probe collaborator and the `promise-timeout` race bound, both in
milliseconds. -/
structure ProbeCall where
  ip : String
  probeTimeoutMS : Nat
  raceTimeoutMS : Nat
  deriving DecidableEq, Repr

/-- `pingDevice`: probe the address with the fixed 0.5 s option; alive gives a
device holding only the ip; not-alive returns `undefined`; a probe rejection
is swallowed by the `catch` and also yields `undefined`. -/
def pingDevice (env : ScanEnv) (ip : String) : Option NetworkDevice :=
  match env.probe ip pingProbeTimeoutMS with
  | ProbeOutcome.alive => some { ip := ip, mac := none, vendor := none }
  | ProbeOutcome.notAlive => none
  | ProbeOutcome.probeError => none

/-- One prepared `pingCall` of `scanLocalNetwork`: race `pingDevice` against
the configured timeout (`timeout(…, options.pingTimeoutMS || 0).catch(() =>
undefined)`), recording the collaborator invocation. -/
def pingCall (env : ScanEnv) (net : String) (raceMS : Nat) (index : Nat) :
    Option NetworkDevice × ProbeCall :=
  let ip := net ++ "." ++ natToString index
  ((if env.raceTimesOut ip then none else pingDevice env ip),
   ⟨ip, pingProbeTimeoutMS, raceMS⟩)

/-- One step of the batch-building loop: when `index % beachesSize === 0` a new
batch keyed by the index is opened, otherwise the index is pushed onto the
current (last-opened) batch.  (For `b ≥ 1` the first iteration always opens a
batch, so the fallback `getLastD [] = []` is never used.) -/
def batchStep (b : Nat) (acc : List (List Nat)) (i : Nat) : List (List Nat) :=
  if i % b = 0 then acc ++ [[i]]
  else acc.dropLast ++ [acc.getLastD [] ++ [i]]

/-- The batches built by the `for (index = 0; index < n; index++)` loop, in
ascending key order (which is how `Object.entries` enumerates the
integer-keyed `pingBatches` object). -/
def buildPingBatches (b n : Nat) : List (List Nat) :=
  (List.range n).foldl (batchStep b) []

/-- The batches for the full 255-address sweep. -/
def pingBatches (b : Nat) : List (List Nat) :=
  buildPingBatches b 255

/-- Run the batches strictly in sequence; within a batch `Promise.all` keeps
the results in dispatch-slot order, and `push(...batchResults)` concatenates
the per-batch slot arrays in batch order.  Returns the ordered settled
results together with the ordered probe-invocation records. -/
def runBatches (env : ScanEnv) (net : String) (raceMS : Nat)
    (batches : List (List Nat)) :
    List (Option NetworkDevice) × List ProbeCall :=
  let settled := (batches.map (fun batch => batch.map (pingCall env net raceMS))).flatten
  (settled.map Prod.fst, settled.map Prod.snd)

/-! ### The ARP-table reader (platform-specific source file) -/

/-- Tokenisation of one ARP line:
`arpLine.trim().split(' ').filter(String).map(i => i.trim())`. -/
def arpLineTokens (line : String) : List String :=
  ((jsSplitSep ' ' (jsTrim line)).filter (fun t => t ≠ "")).map jsTrim

/-- `getWindowsNetworkTableMap` applied to the raw `arp -a` output: split on
CRLF, drop the first 3 lines, destructure each line as `[ip, mac]`, skip
lines whose ip is missing or outside the target network, and store the mac
with its dashes removed.  A matching line without a second token makes
`mac.replace` throw. -/
def getWindowsNetworkTableMap (raw : String) (options : ScanOptions) :
    Except String (List (String × String)) :=
  let arpLines := (jsSplitStr "\r\n" raw).drop 3
  arpLines.foldlM
    (fun table arpLine =>
      match arpLineTokens arpLine with
      | [] => Except.ok table
      | ip :: rest =>
        if ¬ jsStartsWith ip (options.localNetwork.getD "") then Except.ok table
        else
          match rest with
          | [] => Except.error "TypeError: cannot read replace of undefined"
          | mac :: _ => Except.ok (mapSet table ip (removeAllChar '-' mac)))
    []

/-- `getLinuxNetworkTableMap` applied to the raw `arp -n` output: split on LF,
drop the first line, destructure each line as `[ip, hwtype, mac]`, skip
lines whose ip is missing or outside the target network, and store the mac
with its colons removed.  A matching line without a third token makes
`mac.replace` throw. -/
def getLinuxNetworkTableMap (raw : String) (options : ScanOptions) :
    Except String (List (String × String)) :=
  let arpLines := (jsSplitSep '\n' raw).drop 1
  arpLines.foldlM
    (fun table arpLine =>
      match arpLineTokens arpLine with
      | [] => Except.ok table
      | ip :: rest =>
        if ¬ jsStartsWith ip (options.localNetwork.getD "") then Except.ok table
        else
          match rest with
          | [] => Except.error "TypeError: cannot read replace of undefined"
          | [_] => Except.error "TypeError: cannot read replace of undefined"
          | _ :: mac :: _ => Except.ok (mapSet table ip (removeAllChar ':' mac)))
    []

/-- `getNetworkTableMap`: a failed `spawn` rejects; otherwise the
platform-specific parser runs on the raw output. -/
def getNetworkTableMap (env : ScanEnv) (options : ScanOptions) :
    Except String (List (String × String)) :=
  match env.arpOutput with
  | Except.error e => Except.error e
  | Except.ok raw =>
    if env.platformWin then getWindowsNetworkTableMap raw options
    else getLinuxNetworkTableMap raw options

/-! ### Vendor-enrichment phase -/

/-- The vendor string a device with mac `m` receives, all closures having
observed the same dispatch-time cache (each `async` closure performs its
synchronous cache check before any lookup resolves). -/
def vendorOf (lookup : String → LookupResult) (cache : VendorsCache)
    (m : String) : String :=
  (getVendor lookup cache m).1

/-- One dispatched enrichment closure's effect on the (cache, queried-macs)
state: devices with a falsy mac are skipped; the cache-membership check
observes the dispatch-time cache `cache` (every closure's synchronous prefix
runs before any lookup resolves); a miss invokes the remote lookup, and only
a successful lookup writes the cache. -/
def vendorStep (lookup : String → LookupResult) (cache : VendorsCache)
    (acc : VendorsCache × List String) (d : NetworkDevice) :
    VendorsCache × List String :=
  match d.mac with
  | none => acc
  | some m =>
    if m = "" then acc
    else if (mapGet cache m).isSome then acc
    else
      match lookup m with
      | LookupResult.success company =>
          (mapSet acc.1 m (company.getD ""), acc.2 ++ [m])
      | LookupResult.failure => (acc.1, acc.2 ++ [m])

/-- The per-device vendor assignment (`localDevice.vendor = await getVendor(…)`),
against the dispatch-time cache. -/
def enrichDevice (lookup : String → LookupResult) (cache : VendorsCache)
    (d : NetworkDevice) : NetworkDevice :=
  match d.mac with
  | none => d
  | some m =>
    if m = "" then d
    else { d with vendor := some (vendorOf lookup cache m) }

/-- The vendor phase of `scanLocalNetwork`: every device with a truthy mac gets
`vendor` assigned; all cache-membership checks observe the dispatch-time
cache, every miss invokes the remote lookup, and only successful lookups
write the cache.  Returns the mutated devices, the final cache, and the macs
for which a remote lookup was invoked (dispatch order, with multiplicity). -/
def vendorPhase (lookup : String → LookupResult) (cache : VendorsCache)
    (devices : List NetworkDevice) :
    List NetworkDevice × VendorsCache × List String :=
  let cm := devices.foldl (vendorStep lookup cache) (cache, [])
  (devices.map (enrichDevice lookup cache), cm.1, cm.2)

/-! ### The scan orchestration -/

/-- The ping sweep of `scanLocalNetwork`: the batched run over the full
255-address sequence. -/
def sweepResults (env : ScanEnv) (net : String) (raceMS b : Nat) :
    List (Option NetworkDevice) × List ProbeCall :=
  runBatches env net raceMS (pingBatches b)

/-- The device list after the ping sweep (drop absent slots) and the
best-effort ARP merge: on a table read the macs are merged in place, on a
failure (logged and swallowed in the source) the ping-derived list is kept
as is. -/
def devicesAfterArp (env : ScanEnv) (o2 : ScanOptions) (net : String)
    (raceMS b : Nat) : List NetworkDevice :=
  let localDevices := (sweepResults env net raceMS b).1.filterMap id
  match getNetworkTableMap env o2 with
  | Except.ok macTable =>
      localDevices.map (fun d => { d with mac := mapGet macTable d.ip })
  | Except.error _ => localDevices

/-- Everything observable about one `scanLocalNetwork` call: the returned (or
thrown) value, the state of the caller-supplied options object after the call
(the source mutates it in place), the module-level vendor cache after the
call, the probe invocations performed, and the macs sent to the vendor
lookup service. -/
structure ScanOutput where
  result : Except String (List NetworkDevice)
  finalOptions : ScanOptions
  finalCache : VendorsCache
  probeCalls : List ProbeCall
  lookedUpMacs : List String

/-- `scanLocalNetwork`, the exported entry point: optional cache clear, then
in-place defaulting of the options (`queryVendor` is unconditionally
overwritten with `true`), prefix validation, the batched ping sweep, the
best-effort ARP merge (its failure is logged and swallowed), and the vendor
phase. -/
def scanLocalNetwork (env : ScanEnv) (cache : VendorsCache)
    (options0 : ScanOptions) : ScanOutput :=
  let cache0 := if options0.clearVendorsCache.getD false then [] else cache
  let o1 : ScanOptions :=
    { options0 with
        queryVendor := some true
        beachesSize := some (jsOr options0.beachesSize 50)
        pingTimeoutMS := some (jsOr options0.pingTimeoutMS 2500) }
  match getNetworkAddress env.machineIp o1.localNetwork with
  | Except.error e => ⟨Except.error e, o1, cache0, [], []⟩
  | Except.ok net =>
    let o2 : ScanOptions := { o1 with localNetwork := some net }
    let b := o2.beachesSize.getD 50
    let raceMS := jsOr o2.pingTimeoutMS 0
    let afterArp := devicesAfterArp env o2 net raceMS b
    if o2.queryVendor.getD false then
      let vp := vendorPhase env.lookup cache0 afterArp
      ⟨Except.ok vp.1, o2, vp.2.1, (sweepResults env net raceMS b).2, vp.2.2⟩
    else
      ⟨Except.ok afterArp, o2, cache0, (sweepResults env net raceMS b).2, []⟩

/-- `Bool` view of whether the scan returned normally. -/
def scanOk (o : ScanOutput) : Bool :=
  match o.result with
  | Except.ok _ => true
  | Except.error _ => false

/-- The returned device list (empty if the scan threw). -/
def scanDevices (o : ScanOutput) : List NetworkDevice :=
  match o.result with
  | Except.ok l => l
  | Except.error _ => []

/-! ### Derived notions used to state the claims -/

/-- The candidate address with a given last octet. -/
def ipStr (net : String) (i : Nat) : String :=
  net ++ "." ++ natToString i

/-- The state of the caller's options object after a successful expansion
phase: defaults written in place, `queryVendor` forced to `true`, and
`localNetwork` overwritten with the validated (or derived) prefix `net`. -/
def scanOptsFinal (opts : ScanOptions) (net : String) : ScanOptions :=
  { opts with
      localNetwork := some net
      queryVendor := some true
      beachesSize := some (jsOr opts.beachesSize 50)
      pingTimeoutMS := some (jsOr opts.pingTimeoutMS 2500) }

/-- Whether the probe collaborator reported the address alive to the scanner:
the probe resolved `alive` and the `pingTimeoutMS` race did not abandon it
first. -/
def probeAlive (env : ScanEnv) (ip : String) : Bool :=
  (match env.probe ip pingProbeTimeoutMS with
   | ProbeOutcome.alive => true
   | ProbeOutcome.notAlive => false
   | ProbeOutcome.probeError => false) && !env.raceTimesOut ip

/-- Modelled from the spec (for claim C3 only): "exactly 3 dot-separated
numeric octets" — three components, each a non-empty digit string. -/
def specNumericPrefixCheck (s : String) : Bool :=
  let parts := jsSplitSep '.' s
  parts.length = 3 && parts.all (fun p => p ≠ "" && p.data.all Char.isDigit)

/-- The `k`-th chunk (of size `b`) of the ordered index sequence `0 … n-1`. -/
def chunk (b n k : Nat) : List Nat :=
  ((List.range n).drop (k * b)).take b

/-- Closed form of the batch structure: `ceil(n/b)` consecutive chunks of size
`b` (the last possibly shorter). -/
def chunksOfRange (b n : Nat) : List (List Nat) :=
  (List.range ((n + b - 1) / b)).map (chunk b n)

/-- An execution event of the batched sweep: a probe for index `i` is
dispatched, or it settles (resolves, reports absent, or times out). -/
inductive ProbeEvent where
  | dispatch (i : Nat)
  | settle (i : Nat)
  deriving DecidableEq, Repr

/-- The events of one batch: all probes are dispatched (in slot order), then
they settle in an arbitrary completion order given by `settleOrder`. -/
def batchEvents (dispatchOrder settleOrder : List Nat) : List ProbeEvent :=
  dispatchOrder.map ProbeEvent.dispatch ++ settleOrder.map ProbeEvent.settle

/-- The event trace of a whole batched sweep: batches strictly in sequence,
batch `k+1` dispatching only after batch `k` fully settled; `settleOrders`
gives each batch's completion order. -/
def scanTrace (batches settleOrders : List (List Nat)) : List ProbeEvent :=
  (List.zipWith batchEvents batches settleOrders).flatten

/-- Number of dispatch events in a trace. -/
def dispatchCount (t : List ProbeEvent) : Nat :=
  t.countP (fun e => match e with
    | ProbeEvent.dispatch _ => true
    | ProbeEvent.settle _ => false)

/-- Number of settle events in a trace. -/
def settleCount (t : List ProbeEvent) : Nat :=
  t.countP (fun e => match e with
    | ProbeEvent.dispatch _ => false
    | ProbeEvent.settle _ => true)

/-- Probes outstanding after a trace fragment: dispatched but not yet settled. -/
def outstanding (t : List ProbeEvent) : Nat :=
  dispatchCount t - settleCount t

/-- Base-10 decoding of a digit-character list (left inverse of
`natToStringAux`). -/
def decodeDigits (cs : List Char) : Nat :=
  cs.foldl (fun a c => a * 10 + (c.toNat - 48)) 0

/-! ### Concrete collaborator environments for witnesses and counterexamples -/

/-- A Windows-format `arp -a` output for network 10.0.0: one in-network entry
with a dashed lowercase mac, one out-of-network multicast entry. -/
def rawWinArp : String :=
  "\r\nInterface: 10.0.0.99 --- 0x7\r\n  Internet Address      Physical Address      Type\r\n  10.0.0.1           74-da-38-eb-16-98     dynamic\r\n  224.0.0.22            01-00-5e-00-00-16     static"

/-- A Windows-format `arp -a` output whose in-network macs use uppercase hex,
one colon-separated and one dash-separated. -/
def rawWinArpMixed : String :=
  "\r\nInterface: 10.0.0.99 --- 0x7\r\n  Internet Address      Physical Address      Type\r\n  10.0.0.2           AA:BB:CC:DD:EE:FF     dynamic\r\n  10.0.0.3           AA-BB-CC-DD-EE-FF     dynamic"

/-- A Linux-format `arp -n` output with one in-network uppercase
colon-separated mac. -/
def rawLinuxArp : String :=
  "Address                  HWtype  HWaddress           Flags Mask            Iface\n10.0.0.2                 ether   AA:BB:CC:DD:EE:FF   C                     eth0"

/-- Environment: device at 10.0.0.1 (mac 74da38eb1698, vendor Acme via
lookup), every other address absent, all collaborators healthy. -/
def envOneDevice : ScanEnv where
  machineIp := "192.168.0.7"
  probe := fun ip _ => if ip = "10.0.0.1" then ProbeOutcome.alive else ProbeOutcome.notAlive
  raceTimesOut := fun _ => false
  platformWin := true
  arpOutput := Except.ok rawWinArp
  lookup := fun m => if m = "74da38eb1698" then LookupResult.success (some "Acme") else LookupResult.failure

/-- Environment identical to `envOneDevice` except that the `arp` process
fails. -/
def envArpFail : ScanEnv where
  machineIp := "192.168.0.7"
  probe := fun ip _ => if ip = "10.0.0.1" then ProbeOutcome.alive else ProbeOutcome.notAlive
  raceTimesOut := fun _ => false
  platformWin := true
  arpOutput := Except.error "spawn arp ENOENT"
  lookup := fun _ => LookupResult.success (some "Acme")

/-- Environment whose probe collaborator would report alive exactly when
invoked with a 2500 ms timeout option — the timeout claim C7 expects the
configured `pingTimeoutMS` to reach the probe. -/
def envProbeTimeoutSensitive : ScanEnv where
  machineIp := "192.168.0.7"
  probe := fun _ t => if t = 2500 then ProbeOutcome.alive else ProbeOutcome.notAlive
  raceTimesOut := fun _ => false
  platformWin := true
  arpOutput := Except.ok rawWinArp
  lookup := fun _ => LookupResult.failure

/-- Environment with no devices at all and failing collaborators, used where
only the validation path matters. -/
def envQuiet : ScanEnv where
  machineIp := "192.168.0.7"
  probe := fun _ _ => ProbeOutcome.notAlive
  raceTimesOut := fun _ => false
  platformWin := true
  arpOutput := Except.error "spawn arp ENOENT"
  lookup := fun _ => LookupResult.failure

/-- Options selecting network 10.0.0, everything else defaulted. -/
def optsTen : ScanOptions :=
  { emptyOptions with localNetwork := some "10.0.0" }

/-- Options selecting network 10.0.0 with vendor querying explicitly off. -/
def optsTenNoVendor : ScanOptions :=
  { emptyOptions with localNetwork := some "10.0.0", queryVendor := some false }

/-- Options selecting network 10.0.0 and requesting a cache clear. -/
def optsTenClear : ScanOptions :=
  { emptyOptions with localNetwork := some "10.0.0", clearVendorsCache := some true }

/-- Options whose supplied network has 3 components but non-numeric octets. -/
def optsAlphaNet : ScanOptions :=
  { emptyOptions with localNetwork := some "a.b.c" }

/-- Options whose supplied network has only 2 dot-separated components. -/
def optsShortNet : ScanOptions :=
  { emptyOptions with localNetwork := some "10.0" }

/-! ### Lemmas: decimal rendering of indices is injective -/

theorem digitChar_toNat : ∀ d : Nat, d < 10 → (digitChar d).toNat = 48 + d := by
  decide

theorem decodeDigits_append_digit (cs : List Char) (c : Char) :
    decodeDigits (cs ++ [c]) = decodeDigits cs * 10 + (c.toNat - 48) := by
  simp [decodeDigits, List.foldl_append]

theorem decodeDigits_natToStringAux :
    ∀ fuel n, n ≤ fuel → decodeDigits (natToStringAux fuel n) = n := by
  intro fuel
  induction fuel with
  | zero =>
    intro n hn
    have : n = 0 := Nat.le_zero.mp hn
    subst this
    rfl
  | succ fuel ih =>
    intro n hn
    by_cases h0 : n = 0
    · subst h0; rfl
    · have hdiv : n / 10 ≤ fuel := by
        have := Nat.div_lt_self (Nat.pos_of_ne_zero h0) (by norm_num : 1 < 10)
        omega
      have hmod : n % 10 < 10 := Nat.mod_lt _ (by norm_num)
      simp only [natToStringAux, h0, if_false]
      rw [decodeDigits_append_digit, ih (n / 10) hdiv, digitChar_toNat (n % 10) hmod]
      omega

theorem natToString_injective : Function.Injective natToString := by
  intro a b h
  by_cases ha : a = 0 <;> by_cases hb : b = 0
  · omega
  · exfalso
    subst ha
    simp [natToString, hb] at h
    have hd := congrArg String.data h
    have hdec := congrArg decodeDigits hd
    have : decodeDigits (String.data "0") = 0 := rfl
    rw [this] at hdec
    exact hb (by rw [← decodeDigits_natToStringAux b b (Nat.le_refl b), ← hdec])
  · exfalso
    subst hb
    simp [natToString, ha] at h
    have hd := congrArg String.data h
    have hdec := congrArg decodeDigits hd
    have : decodeDigits (String.data "0") = 0 := rfl
    rw [this] at hdec
    exact ha (by rw [← decodeDigits_natToStringAux a a (Nat.le_refl a), hdec])
  · simp [natToString, ha, hb] at h
    have hd := congrArg String.data h
    have := congrArg decodeDigits hd
    rwa [decodeDigits_natToStringAux a a (Nat.le_refl a),
         decodeDigits_natToStringAux b b (Nat.le_refl b)] at this

theorem ipStr_injective (net : String) : Function.Injective (ipStr net) := by
  intro i j h
  have hd := congrArg String.data h
  simp only [ipStr, String.data_append, List.append_assoc] at hd
  have h1 := (List.append_right_inj net.data).mp hd
  have h2 := (List.append_right_inj (String.data ".")).mp h1
  exact natToString_injective (String.ext h2)

/-! ### Lemmas: the batch-building loop and its closed chunk form -/

theorem ceil_div_zero (b : Nat) (hb : 1 ≤ b) : (0 + b - 1) / b = 0 :=
  Nat.div_eq_of_lt (by omega)

theorem ceil_div_succ (b n : Nat) (hb : 1 ≤ b) :
    (n + 1 + b - 1) / b = n / b + 1 := by
  have hmod := Nat.mod_lt n (show 0 < b by omega)
  have hdm := Nat.div_add_mod n b
  have h1 : n + 1 + b - 1 = b * (n / b) + (n % b + b) := by omega
  have h2 : n % b / b = 0 := Nat.div_eq_of_lt hmod
  rw [h1, Nat.mul_add_div (by omega), Nat.add_div_right _ (by omega), h2]

theorem ceil_div_of_mod_eq_zero (b n : Nat) (hb : 1 ≤ b) (h : n % b = 0) :
    (n + b - 1) / b = n / b := by
  have hdm := Nat.div_add_mod n b
  have h1 : n + b - 1 = b * (n / b) + (b - 1) := by omega
  have h2 : (b - 1) / b = 0 := Nat.div_eq_of_lt (by omega)
  rw [h1, Nat.mul_add_div (by omega), h2]
  omega

theorem ceil_div_of_mod_ne_zero (b n : Nat) (hb : 1 ≤ b) (h : n % b ≠ 0) :
    (n + b - 1) / b = n / b + 1 := by
  have hmod := Nat.mod_lt n (show 0 < b by omega)
  have hdm := Nat.div_add_mod n b
  have h1 : n + b - 1 = b * (n / b) + (n % b - 1 + b) := by omega
  have h2 : (n % b - 1) / b = 0 := Nat.div_eq_of_lt (by omega)
  rw [h1, Nat.mul_add_div (by omega), Nat.add_div_right _ (by omega), h2]

theorem chunk_stable (b n k : Nat) (h : k * b + b ≤ n) :
    chunk b (n + 1) k = chunk b n k := by
  unfold chunk
  rw [List.range_succ, List.drop_append_of_le_length (by simp; omega),
      List.take_append_of_le_length (by simp; omega)]

theorem chunk_last_dvd (b n : Nat) (hb : 1 ≤ b) (h : n % b = 0) :
    chunk b (n + 1) (n / b) = [n] := by
  unfold chunk
  have hdm := Nat.div_add_mod n b
  have hq : n / b * b = n := by rw [Nat.mul_comm]; omega
  rw [List.range_succ, hq, List.drop_append_of_le_length (by simp)]
  have h0 : (List.range n).drop n = [] := by simp
  rw [h0, List.nil_append]
  exact List.take_of_length_le (by simp; omega)

theorem chunk_last_extend (b n : Nat) (hb : 1 ≤ b) (_h : n % b ≠ 0) :
    chunk b (n + 1) (n / b) = chunk b n (n / b) ++ [n] := by
  unfold chunk
  have hmod := Nat.mod_lt n (show 0 < b by omega)
  have hdm := Nat.div_add_mod n b
  have hq : n / b * b ≤ n := Nat.div_mul_le_self n b
  have hq2 : n - n / b * b = n % b := by rw [Nat.mul_comm]; omega
  have hlen : ((List.range n).drop (n / b * b)).length = n % b := by
    simp [hq2]
  rw [List.range_succ, List.drop_append_of_le_length (by simpa using hq),
      List.take_append_eq_append_take]
  congr 1
  exact List.take_of_length_le (by simp [hlen]; omega)

theorem buildPingBatches_succ (b n : Nat) :
    buildPingBatches b (n + 1) = batchStep b (buildPingBatches b n) n := by
  simp [buildPingBatches, List.range_succ, List.foldl_append]

theorem buildPingBatches_eq_chunks (b : Nat) (hb : 1 ≤ b) :
    ∀ n, buildPingBatches b n = chunksOfRange b n := by
  intro n
  induction n with
  | zero =>
    simp [buildPingBatches, chunksOfRange, ceil_div_zero b hb]
    exact Nat.div_eq_of_lt (by omega)
  | succ n ih =>
    rw [buildPingBatches_succ, ih]
    unfold batchStep chunksOfRange
    by_cases h : n % b = 0
    · rw [if_pos h, ceil_div_succ b n hb, ceil_div_of_mod_eq_zero b n hb h,
          List.range_succ, List.map_append]
      congr 1
      · exact List.map_congr_left (fun k hk => by
          have hk' := List.mem_range.mp hk
          have h1 : (k + 1) * b ≤ n / b * b := Nat.mul_le_mul_right b hk'
          have h2 : n / b * b ≤ n := Nat.div_mul_le_self n b
          have hdm := Nat.div_add_mod n b
          rw [Nat.succ_mul] at h1
          exact (chunk_stable b n k (by omega)).symm)
      · simp [chunk_last_dvd b n hb h]
    · rw [if_neg h, ceil_div_succ b n hb, ceil_div_of_mod_ne_zero b n hb h,
          List.range_succ, List.map_append, List.map_append]
      simp only [List.map_cons, List.map_nil, List.dropLast_concat, List.getLastD_concat]
      congr 1
      · exact List.map_congr_left (fun k hk => by
          have hk' := List.mem_range.mp hk
          have h1 : (k + 1) * b ≤ n / b * b := Nat.mul_le_mul_right b hk'
          have h2 : n / b * b ≤ n := Nat.div_mul_le_self n b
          have hdm := Nat.div_add_mod n b
          have hmod := Nat.mod_lt n (show 0 < b by omega)
          rw [Nat.succ_mul] at h1
          exact (chunk_stable b n k (by omega)).symm)
      · simp [chunk_last_extend b n hb h]

theorem flatten_chunks_aux (b : Nat) (hb : 1 ≤ b) :
    ∀ (c : Nat) (l : List Nat), (l.length + b - 1) / b = c →
      ((List.range c).map (fun k => (l.drop (k * b)).take b)).flatten = l := by
  intro c
  induction c with
  | zero =>
    intro l h
    have hlt : l.length + b - 1 < b := by
      by_contra hge
      have : 1 ≤ (l.length + b - 1) / b := (Nat.le_div_iff_mul_le (by omega)).mpr (by omega)
      omega
    have : l.length = 0 := by omega
    rw [List.eq_nil_of_length_eq_zero this]
    rfl
  | succ c ih =>
    intro l h
    rw [List.range_succ_eq_map]
    simp only [List.map_cons, List.flatten_cons, List.map_map, Nat.zero_mul,
      List.drop_zero]
    have hcong :
        (List.range c).map ((fun k => (l.drop (k * b)).take b) ∘ Nat.succ) =
        (List.range c).map (fun k => ((l.drop b).drop (k * b)).take b) := by
      apply List.map_congr_left
      intro k _
      simp only [Function.comp]
      rw [List.drop_drop]
      congr 2
      rw [Nat.succ_mul]
      omega
    rw [hcong, ih (l.drop b) ?_]
    · exact List.take_append_drop b l
    · by_cases hbl : b ≤ l.length
      · have h1 : l.length + b - 1 = (l.length - 1) + b := by omega
        rw [h1, Nat.add_div_right _ (by omega)] at h
        have h2 : (l.drop b).length + b - 1 = l.length - 1 := by simp; omega
        rw [h2]
        omega
      · have hlt2 : (l.length + b - 1) / b < 2 :=
          (Nat.div_lt_iff_lt_mul (by omega)).mpr (by omega)
        have hc : c = 0 := by omega
        have h2 : (l.drop b).length + b - 1 = b - 1 := by simp; omega
        rw [h2, hc]
        exact Nat.div_eq_of_lt (by omega)

theorem pingBatches_eq_chunks (b : Nat) (hb : 1 ≤ b) :
    pingBatches b = chunksOfRange b 255 :=
  buildPingBatches_eq_chunks b hb 255

theorem pingBatches_length (b : Nat) (hb : 1 ≤ b) :
    (pingBatches b).length = (255 + b - 1) / b := by
  rw [pingBatches_eq_chunks b hb]
  simp [chunksOfRange]

theorem pingBatches_flatten (b : Nat) (hb : 1 ≤ b) :
    (pingBatches b).flatten = List.range 255 := by
  rw [pingBatches_eq_chunks b hb]
  have h := flatten_chunks_aux b hb ((255 + b - 1) / b) (List.range 255) (by simp)
  simpa [chunksOfRange, chunk] using h

theorem pingBatches_sizes (b : Nat) (hb : 1 ≤ b) :
    ∀ l ∈ pingBatches b, l ≠ [] ∧ l.length ≤ b := by
  rw [pingBatches_eq_chunks b hb]
  intro l hl
  obtain ⟨k, hk, rfl⟩ := List.mem_map.mp hl
  have hk' : k < (255 + b - 1) / b := List.mem_range.mp hk
  have h1 : (k + 1) * b ≤ (255 + b - 1) / b * b :=
    Nat.mul_le_mul_right b hk'
  have h2 : (255 + b - 1) / b * b ≤ 255 + b - 1 := Nat.div_mul_le_self _ _
  rw [Nat.succ_mul] at h1
  constructor
  · intro hnil
    have hlen := congrArg List.length hnil
    simp [chunk] at hlen
    omega
  · simp [chunk]

theorem pingBatches_get_full (b : Nat) (hb : 1 ≤ b) (k : Nat)
    (hk : k + 1 < (pingBatches b).length) :
    ((pingBatches b).getD k []).length = b := by
  have hclen : (chunksOfRange b 255).length = (255 + b - 1) / b := by
    rw [chunksOfRange, List.length_map, List.length_range]
  have hk2 : k + 1 < (chunksOfRange b 255).length := by
    rwa [← pingBatches_eq_chunks b hb]
  have hkc : k + 2 ≤ (255 + b - 1) / b := by omega
  have h1 : (k + 2) * b ≤ (255 + b - 1) / b * b := Nat.mul_le_mul_right b hkc
  have h2 : (255 + b - 1) / b * b ≤ 255 + b - 1 := Nat.div_mul_le_self _ _
  have h3 : k * b + 2 * b ≤ 255 + b - 1 := by
    have hmul : k * b + 2 * b = (k + 2) * b := by ring
    omega
  rw [pingBatches_eq_chunks b hb]
  have hklt : k < (255 + b - 1) / b := by omega
  have hgd : (chunksOfRange b 255).getD k [] = chunk b 255 k := by
    rw [chunksOfRange, List.getD_eq_getElem?_getD, List.getElem?_map,
        List.getElem?_range hklt]
    rfl
  rw [hgd]
  simp [chunk]
  omega

/-! ### Lemmas: the aggregate of the batched sweep preserves slot order -/

theorem runBatches_fst (env : ScanEnv) (net : String) (raceMS : Nat)
    (batches : List (List Nat)) :
    (runBatches env net raceMS batches).1 =
      batches.flatten.map (fun i => (pingCall env net raceMS i).1) := by
  simp [runBatches, ← List.map_flatten, List.map_map]

theorem runBatches_snd (env : ScanEnv) (net : String) (raceMS : Nat)
    (batches : List (List Nat)) :
    (runBatches env net raceMS batches).2 =
      batches.flatten.map (fun i => (pingCall env net raceMS i).2) := by
  simp [runBatches, ← List.map_flatten, List.map_map]

theorem pingCall_fst (env : ScanEnv) (net : String) (raceMS i : Nat) :
    (pingCall env net raceMS i).1 =
      if probeAlive env (ipStr net i) then
        some ⟨ipStr net i, none, none⟩
      else none := by
  simp only [pingCall, pingDevice, probeAlive, ipStr]
  cases h : env.probe (net ++ "." ++ natToString i) pingProbeTimeoutMS <;>
    cases hr : env.raceTimesOut (net ++ "." ++ natToString i) <;>
      simp [h, hr]

theorem pingCall_snd (env : ScanEnv) (net : String) (raceMS i : Nat) :
    (pingCall env net raceMS i).2 = ⟨ipStr net i, pingProbeTimeoutMS, raceMS⟩ :=
  rfl

theorem filterMap_map_if {α β : Type} (P : α → Bool) (f : α → β) (l : List α) :
    (l.map (fun a => if P a then some (f a) else none)).filterMap id =
      (l.filter P).map f := by
  induction l with
  | nil => rfl
  | cons a l ih =>
    by_cases h : P a <;> simp [h, ih]

/-! ### Lemmas: the scan pipeline under a valid supplied prefix -/

theorem jsOr_pos (o : Option Nat) (d : Nat) (hd : 1 ≤ d) : 1 ≤ jsOr o d := by
  cases o with
  | none => simpa [jsOr]
  | some n => by_cases h : n = 0 <;> simp [jsOr, h] <;> omega

theorem ne_empty_of_split3 (p : String) (h3 : (jsSplitSep '.' p).length = 3) :
    p ≠ "" := by
  intro h
  rw [h] at h3
  exact absurd h3 (by decide)

theorem getNetworkAddress_some (machineIp p : String)
    (h3 : (jsSplitSep '.' p).length = 3) :
    getNetworkAddress machineIp (some p) = Except.ok p := by
  have hne := ne_empty_of_split3 p h3
  simp [getNetworkAddress, hne, h3]

theorem scanLocalNetwork_valid (env : ScanEnv) (cache : VendorsCache)
    (opts : ScanOptions) (p : String)
    (hp : opts.localNetwork = some p) (h3 : (jsSplitSep '.' p).length = 3) :
    scanLocalNetwork env cache opts =
      (let cache0 := if opts.clearVendorsCache.getD false then [] else cache
       let o2 := scanOptsFinal opts p
       let b := jsOr opts.beachesSize 50
       let raceMS := jsOr (some (jsOr opts.pingTimeoutMS 2500)) 0
       let vp := vendorPhase env.lookup cache0 (devicesAfterArp env o2 p raceMS b)
       ⟨Except.ok vp.1, o2, vp.2.1, (sweepResults env p raceMS b).2, vp.2.2⟩) := by
  have hga := getNetworkAddress_some env.machineIp p h3
  simp only [scanLocalNetwork, hp, hga, scanOptsFinal, Option.getD_some]
  rfl

theorem vendorPhase_fst_map_ip (lookup : String → LookupResult)
    (cache : VendorsCache) (devices : List NetworkDevice) :
    (vendorPhase lookup cache devices).1.map NetworkDevice.ip =
      devices.map NetworkDevice.ip := by
  simp only [vendorPhase, List.map_map]
  apply List.map_congr_left
  intro d _
  cases hm : d.mac with
  | none => simp [Function.comp, enrichDevice, hm]
  | some m => by_cases h : m = "" <;> simp [Function.comp, enrichDevice, hm, h]

theorem devicesAfterArp_map_ip (env : ScanEnv) (o2 : ScanOptions)
    (net : String) (raceMS b : Nat) :
    (devicesAfterArp env o2 net raceMS b).map NetworkDevice.ip =
      ((sweepResults env net raceMS b).1.filterMap id).map NetworkDevice.ip := by
  unfold devicesAfterArp
  cases getNetworkTableMap env o2 <;> simp [List.map_map]

theorem sweep_filterMap (env : ScanEnv) (net : String) (raceMS b : Nat)
    (hb : 1 ≤ b) :
    (sweepResults env net raceMS b).1.filterMap id =
      ((List.range 255).filter (fun i => probeAlive env (ipStr net i))).map
        (fun i => ⟨ipStr net i, none, none⟩) := by
  unfold sweepResults
  rw [runBatches_fst, pingBatches_flatten b hb]
  have hfun : (fun i => (pingCall env net raceMS i).1) =
      (fun i =>
        if probeAlive env (ipStr net i) then
          some (⟨ipStr net i, none, none⟩ : NetworkDevice)
        else none) := by
    funext i
    exact pingCall_fst env net raceMS i
  rw [hfun, filterMap_map_if]

theorem sweep_snd (env : ScanEnv) (net : String) (raceMS b : Nat)
    (hb : 1 ≤ b) :
    (sweepResults env net raceMS b).2 =
      (List.range 255).map
        (fun i => (⟨ipStr net i, pingProbeTimeoutMS, raceMS⟩ : ProbeCall)) := by
  unfold sweepResults
  rw [runBatches_snd, pingBatches_flatten b hb]
  rfl

/-! ### Lemmas: the event-trace model of batched execution -/

theorem dispatchCount_append (t u : List ProbeEvent) :
    dispatchCount (t ++ u) = dispatchCount t + dispatchCount u := by
  simp [dispatchCount, List.countP_append]

theorem settleCount_append (t u : List ProbeEvent) :
    settleCount (t ++ u) = settleCount t + settleCount u := by
  simp [settleCount, List.countP_append]

theorem dispatchCount_dispatch_map (l : List Nat) :
    dispatchCount (l.map ProbeEvent.dispatch) = l.length := by
  simp [dispatchCount, List.countP_map, Function.comp]

theorem dispatchCount_settle_map (l : List Nat) :
    dispatchCount (l.map ProbeEvent.settle) = 0 := by
  simp [dispatchCount, List.countP_map, Function.comp]

theorem settleCount_dispatch_map (l : List Nat) :
    settleCount (l.map ProbeEvent.dispatch) = 0 := by
  simp [settleCount, List.countP_map, Function.comp]

theorem settleCount_settle_map (l : List Nat) :
    settleCount (l.map ProbeEvent.settle) = l.length := by
  simp [settleCount, List.countP_map, Function.comp]

theorem outstanding_batchEvents_split (b : Nat) (d s : List Nat)
    (hd : d.length ≤ b) (pre c : List ProbeEvent)
    (h : batchEvents d s = pre ++ c) :
    outstanding pre ≤ b := by
  unfold batchEvents at h
  rcases List.append_eq_append_iff.mp h with ⟨a, hpre, hrest⟩ | ⟨a, hmap, _⟩
  · obtain ⟨s₁, s₂, _, hs₁, _⟩ := List.map_eq_append_iff.mp hrest
    subst hpre
    rw [← hs₁]
    simp only [outstanding, dispatchCount_append, settleCount_append,
      dispatchCount_dispatch_map, settleCount_dispatch_map,
      dispatchCount_settle_map, settleCount_settle_map]
    omega
  · obtain ⟨d₁, d₂, hd12, hd₁, _⟩ := List.map_eq_append_iff.mp hmap
    have hlen : d₁.length ≤ d.length := by
      rw [hd12, List.length_append]
      omega
    rw [← hd₁]
    simp only [outstanding, dispatchCount_dispatch_map, settleCount_dispatch_map]
    omega

theorem outstanding_scanTrace_le (b : Nat) :
    ∀ (B S : List (List Nat)), List.Forall₂ (fun s d => s.Perm d) S B →
      (∀ l ∈ B, l.length ≤ b) →
      ∀ pre post, scanTrace B S = pre ++ post → outstanding pre ≤ b := by
  intro B S hperm
  induction hperm with
  | nil =>
    intro _ pre post h
    simp only [scanTrace, List.zipWith_nil_left, List.flatten_nil] at h
    have hpre : pre = [] := (List.append_eq_nil.mp h.symm).1
    subst hpre
    simp [outstanding, dispatchCount, settleCount]
  | @cons s d S' B' hR hF ih =>
    intro hlen pre post h
    simp only [scanTrace, List.zipWith_cons_cons, List.flatten_cons] at h
    rcases List.append_eq_append_iff.mp h with ⟨a, hpre, hrest⟩ | ⟨c, hX, _⟩
    · subst hpre
      have hle := ih (fun l hl => hlen l (List.mem_cons_of_mem _ hl)) a post
        (by simpa [scanTrace] using hrest)
      have hsl : s.length = d.length := hR.length_eq
      simp only [outstanding, batchEvents, dispatchCount_append,
        settleCount_append, dispatchCount_dispatch_map,
        settleCount_dispatch_map, dispatchCount_settle_map,
        settleCount_settle_map] at hle ⊢
      omega
    · exact outstanding_batchEvents_split b d s
        (hlen d (List.mem_cons_self _ _)) pre c hX

theorem settle_before_later_dispatch :
    ∀ (B S : List (List Nat)), List.Forall₂ (fun s d => s.Perm d) S B →
      B.flatten.Nodup →
      ∀ pre post, scanTrace B S = pre ++ post →
      ∀ j k (hj : j < B.length) (hk : k < B.length), k < j →
      ∀ i ∈ B.get ⟨j, hj⟩, ProbeEvent.dispatch i ∈ pre →
      ∀ x ∈ B.get ⟨k, hk⟩, ProbeEvent.settle x ∈ pre := by
  intro B S hperm
  induction hperm with
  | nil =>
    intro _ pre post h j k hj hk hkj
    exact absurd hj (by simp)
  | @cons s d S' B' hR hF ih =>
    intro hnd pre post h j k hj hk hkj i hi hdisp x hx
    simp only [scanTrace, List.zipWith_cons_cons, List.flatten_cons] at h
    simp only [List.flatten_cons] at hnd
    have hndB' : B'.flatten.Nodup := hnd.of_append_right
    have hdisj : List.Disjoint d B'.flatten := List.disjoint_of_nodup_append hnd
    match j, hj, hkj with
    | 0, _, hkj => exact absurd hkj (by omega)
    | j' + 1, hj, hkj =>
      have hj' : j' < B'.length := by
        simp only [List.length_cons] at hj
        omega
      have hi' : i ∈ B'.get ⟨j', hj'⟩ := hi
      have hiB' : i ∈ B'.flatten :=
        List.mem_flatten.mpr ⟨_, List.get_mem B' j' hj', hi'⟩
      rcases List.append_eq_append_iff.mp h with ⟨a, hpre, hrest⟩ | ⟨c, hX, _⟩
      · subst hpre
        have hdisp_a : ProbeEvent.dispatch i ∈ a := by
          rcases List.mem_append.mp hdisp with hin | hin
          · exfalso
            unfold batchEvents at hin
            rcases List.mem_append.mp hin with hd1 | hd1
            · obtain ⟨y, hy, hey⟩ := List.mem_map.mp hd1
              injection hey with hyi
              subst hyi
              exact hdisj hy hiB'
            · obtain ⟨y, hy, hey⟩ := List.mem_map.mp hd1
              exact ProbeEvent.noConfusion hey
          · exact hin
        match k, hk with
        | 0, _ =>
          have hxs : x ∈ s := hR.mem_iff.mpr hx
          refine List.mem_append.mpr (Or.inl ?_)
          unfold batchEvents
          exact List.mem_append.mpr (Or.inr (List.mem_map.mpr ⟨x, hxs, rfl⟩))
        | k' + 1, hk =>
          have hk' : k' < B'.length := by
            simp only [List.length_cons] at hk
            omega
          have hrec := ih hndB' a post (by simpa [scanTrace] using hrest)
            j' k' hj' hk' (by omega) i hi' hdisp_a x hx
          exact List.mem_append.mpr (Or.inr hrec)
      · exfalso
        have hinX : ProbeEvent.dispatch i ∈ batchEvents d s := by
          rw [hX]
          exact List.mem_append.mpr (Or.inl hdisp)
        unfold batchEvents at hinX
        rcases List.mem_append.mp hinX with hd1 | hd1
        · obtain ⟨y, hy, hey⟩ := List.mem_map.mp hd1
          injection hey with hyi
          subst hyi
          exact hdisj hy hiB'
        · obtain ⟨y, hy, hey⟩ := List.mem_map.mp hd1
          exact ProbeEvent.noConfusion hey

/-! ### Claim theorems -/

/-- C1: for every valid 3-octet prefix, `scanLocalNetwork` returns (without
throwing) a list whose addresses are exactly the candidates
`{prefix}.0 … {prefix}.254` that the probe collaborator reported alive
within the race window, at most 255 entries, each ip at most once, in
ascending last-octet order (the alive last octets are listed by the strictly
increasing filtered index sequence). -/
theorem c1_result_exactly_alive_ordered (env : ScanEnv) (cache : VendorsCache)
    (opts : ScanOptions) (p : String)
    (hp : opts.localNetwork = some p) (h3 : (jsSplitSep '.' p).length = 3) :
    (scanLocalNetwork env cache opts).result =
      Except.ok (scanDevices (scanLocalNetwork env cache opts)) ∧
    (scanDevices (scanLocalNetwork env cache opts)).map NetworkDevice.ip =
      ((List.range 255).filter (fun i => probeAlive env (ipStr p i))).map
        (ipStr p) ∧
    ((List.range 255).filter (fun i => probeAlive env (ipStr p i))).Pairwise
      (· < ·) ∧
    (scanDevices (scanLocalNetwork env cache opts)).length ≤ 255 ∧
    ((scanDevices (scanLocalNetwork env cache opts)).map NetworkDevice.ip).Nodup := by
  have hb : 1 ≤ jsOr opts.beachesSize 50 := jsOr_pos _ _ (by omega)
  rw [scanLocalNetwork_valid env cache opts p hp h3]
  simp only [scanDevices]
  have hips :
      (vendorPhase env.lookup
          (if opts.clearVendorsCache.getD false then [] else cache)
          (devicesAfterArp env (scanOptsFinal opts p) p
            (jsOr (some (jsOr opts.pingTimeoutMS 2500)) 0)
            (jsOr opts.beachesSize 50))).1.map NetworkDevice.ip =
        ((List.range 255).filter (fun i => probeAlive env (ipStr p i))).map
          (ipStr p) := by
    rw [vendorPhase_fst_map_ip, devicesAfterArp_map_ip,
        sweep_filterMap env p _ _ hb, List.map_map]
    rfl
  have hpair :
      ((List.range 255).filter (fun i => probeAlive env (ipStr p i))).Pairwise
        (· < ·) :=
    List.Pairwise.sublist (List.filter_sublist _) (List.pairwise_lt_range 255)
  refine ⟨trivial, hips, hpair, ?_, ?_⟩
  · have hlen := congrArg List.length hips
    simp only [List.length_map] at hlen
    rw [hlen]
    calc ((List.range 255).filter fun i => probeAlive env (ipStr p i)).length
        ≤ (List.range 255).length := List.length_filter_le _ _
      _ = 255 := List.length_range 255
  · rw [hips]
    exact ((List.nodup_range 255).filter _).map (ipStr_injective p)

/-- Witness for C1: concrete environment with one live device on 10.0.0. -/
theorem c1_witness :
    (optsTen.localNetwork = some "10.0.0" ∧
      (jsSplitSep '.' "10.0.0").length = 3) ∧
    (scanDevices (scanLocalNetwork envOneDevice [] optsTen)).map
        NetworkDevice.ip = ["10.0.0.1"] := by
  obtain ⟨hres, hips, hpair, hlen, hnd⟩ :=
    c1_result_exactly_alive_ordered envOneDevice [] optsTen "10.0.0" rfl
      (by decide)
  refine ⟨⟨rfl, by decide⟩, ?_⟩
  rw [hips]
  decide

/-- C2: for every `batchSize ≥ 1` the 255-address index sequence is split into
`ceil(255/batchSize)` consecutive groups (each non-empty, of size at most
`batchSize`, all but the last of size exactly `batchSize`) whose
concatenation is the original ordered sequence; the aggregate sweep output
equals the slot-ordered map over the whole sequence (so original order is
preserved regardless of completion order); and in every execution trace
(groups strictly sequential, arbitrary completion order inside a group)
the probes of group `k` all settle before any probe of a later group is
dispatched, and at no point are more than `batchSize` probes outstanding. -/
theorem c2_batches_partition_sequential (b : Nat) (hb : 1 ≤ b) (env : ScanEnv)
    (net : String) (raceMS : Nat) (settleOrders : List (List Nat))
    (hperm : List.Forall₂ (fun s d => s.Perm d) settleOrders (pingBatches b)) :
    (pingBatches b).length = (255 + b - 1) / b ∧
    (pingBatches b).flatten = List.range 255 ∧
    (∀ l ∈ pingBatches b, l ≠ [] ∧ l.length ≤ b) ∧
    (∀ k, k + 1 < (pingBatches b).length →
      ((pingBatches b).getD k []).length = b) ∧
    (sweepResults env net raceMS b).1 =
      (List.range 255).map (fun i => (pingCall env net raceMS i).1) ∧
    (∀ pre post, scanTrace (pingBatches b) settleOrders = pre ++ post →
      outstanding pre ≤ b) ∧
    (∀ pre post, scanTrace (pingBatches b) settleOrders = pre ++ post →
      ∀ j k (hj : j < (pingBatches b).length)
        (hk : k < (pingBatches b).length), k < j →
        ∀ i ∈ (pingBatches b).get ⟨j, hj⟩,
          ProbeEvent.dispatch i ∈ pre →
          ∀ x ∈ (pingBatches b).get ⟨k, hk⟩, ProbeEvent.settle x ∈ pre) := by
  refine ⟨pingBatches_length b hb, pingBatches_flatten b hb,
    pingBatches_sizes b hb,
    (fun k hk => pingBatches_get_full b hb k hk), ?_, ?_, ?_⟩
  · unfold sweepResults
    rw [runBatches_fst, pingBatches_flatten b hb]
  · exact fun pre post h =>
      outstanding_scanTrace_le b (pingBatches b) settleOrders hperm
        (fun l hl => (pingBatches_sizes b hb l hl).2) pre post h
  · intro pre post h j k hj hk hkj i hi hdisp x hx
    have hnd : (pingBatches b).flatten.Nodup := by
      rw [pingBatches_flatten b hb]
      exact List.nodup_range 255
    exact settle_before_later_dispatch (pingBatches b) settleOrders hperm hnd
      pre post h j k hj hk hkj i hi hdisp x hx

/-- Witness for C2 at `batchSize = 10` (the spec's own example): 26 groups,
concatenating back to the original sequence, with the full trace never
holding more than 10 outstanding probes. -/
theorem c2_witness :
    (pingBatches 10).length = 26 ∧
    (pingBatches 10).flatten = List.range 255 ∧
    outstanding (scanTrace (pingBatches 10) (pingBatches 10)) ≤ 10 := by
  obtain ⟨hlen, hflat, _, _, _, hout, _⟩ :=
    c2_batches_partition_sequential 10 (by decide) envOneDevice "10.0.0" 2500
      (pingBatches 10)
      (List.forall₂_same.mpr (fun x _ => List.Perm.refl x))
  exact ⟨by rw [hlen], hflat, hout _ [] (List.append_nil _).symm⟩

/-! ### Claim C3: validation and the error surface -/

theorem getNetworkAddress_error_iff (machineIp : String) (ln : Option String) :
    (∃ e, getNetworkAddress machineIp ln = Except.error e) ↔
      ((ln.getD "" ≠ "" ∧ (jsSplitSep '.' (ln.getD "")).length ≠ 3) ∨
       (ln.getD "" = "" ∧ (jsSplitSep '.' machineIp).length ≠ 4)) := by
  unfold getNetworkAddress
  by_cases h1 : ln.getD "" = ""
  · simp only [h1]
    by_cases h4 : (jsSplitSep '.' machineIp).length = 4 <;> simp [h4]
  · simp only [h1]
    by_cases h3 : (jsSplitSep '.' (ln.getD "")).length = 3 <;> simp [h1, h3]

theorem scanOk_false_iff (env : ScanEnv) (cache : VendorsCache)
    (opts : ScanOptions) :
    (scanOk (scanLocalNetwork env cache opts) = false ↔
      ∃ e, getNetworkAddress env.machineIp opts.localNetwork = Except.error e) ∧
    (scanOk (scanLocalNetwork env cache opts) = false →
      (scanLocalNetwork env cache opts).probeCalls = [] ∧
      (scanLocalNetwork env cache opts).lookedUpMacs = []) := by
  cases hga : getNetworkAddress env.machineIp opts.localNetwork with
  | error e => simp [scanLocalNetwork, hga, scanOk]
  | ok net => simp [scanLocalNetwork, hga, scanOk]

/-- C3 (amended): `scanLocalNetwork` surfaces an error to the caller if and
only if expansion-phase validation fails — `InvalidNetworkFormat` when a
supplied (truthy) `localNetwork` does not split into exactly 3 dot-separated
components (numeric content of the components is NOT checked), and
`NoLocalAddress` when no prefix is supplied and the machine address does not
split into exactly 4 components — and any such failure happens before any
probe is dispatched and before any vendor lookup; after validation the scan
never surfaces an error. -/
theorem c3_error_iff_validation (env : ScanEnv) (cache : VendorsCache)
    (opts : ScanOptions) :
    (scanOk (scanLocalNetwork env cache opts) = false ↔
      ((opts.localNetwork.getD "" ≠ "" ∧
        (jsSplitSep '.' (opts.localNetwork.getD "")).length ≠ 3) ∨
       (opts.localNetwork.getD "" = "" ∧
        (jsSplitSep '.' env.machineIp).length ≠ 4))) ∧
    (scanOk (scanLocalNetwork env cache opts) = false →
      (scanLocalNetwork env cache opts).probeCalls = [] ∧
      (scanLocalNetwork env cache opts).lookedUpMacs = []) := by
  obtain ⟨hiff, himp⟩ := scanOk_false_iff env cache opts
  exact ⟨hiff.trans (getNetworkAddress_error_iff env.machineIp
    opts.localNetwork), himp⟩

/-- Witness for C3 (amended) at the malformed prefix "10.0": the scan throws
and performs no probe and no vendor lookup. -/
theorem c3_witness :
    scanOk (scanLocalNetwork envQuiet [] optsShortNet) = false ∧
    (scanLocalNetwork envQuiet [] optsShortNet).probeCalls = [] ∧
    (scanLocalNetwork envQuiet [] optsShortNet).lookedUpMacs = [] := by
  obtain ⟨hiff, himp⟩ := c3_error_iff_validation envQuiet [] optsShortNet
  have hfail : scanOk (scanLocalNetwork envQuiet [] optsShortNet) = false :=
    hiff.mpr (Or.inl ⟨by decide, by decide⟩)
  exact ⟨hfail, himp hfail⟩

/-- Counterexample to C3 as stated: the supplied prefix "a.b.c" does not
consist of 3 *numeric* octets, yet the scan succeeds without surfacing an
error — the source validates only the dot-separated component count. -/
theorem c3_counterexample :
    specNumericPrefixCheck "a.b.c" = false ∧
    scanOk (scanLocalNetwork envQuiet [] optsAlphaNet) = true := by
  exact ⟨by decide, by decide⟩

/-! ### Claim C4: the queryVendor gate -/

/-- C4 (code bug exhibited): even with `queryVendor := false` supplied, the
scan unconditionally overwrites the option to `true` and runs vendor
enrichment: on a network with one live device whose mac resolves, the
vendor-lookup collaborator is invoked for that mac and the vendor field is
populated — contradicting models.ts ("default false") and the README ("OFF
by default"). -/
theorem c4_query_vendor_gate_ignored :
    (scanLocalNetwork envOneDevice [] optsTenNoVendor).lookedUpMacs =
      ["74da38eb1698"] ∧
    (scanLocalNetwork envOneDevice [] optsTenNoVendor).finalOptions.queryVendor
      = some true ∧
    scanDevices (scanLocalNetwork envOneDevice [] optsTenNoVendor) =
      [⟨"10.0.0.1", some "74da38eb1698", some "Acme"⟩] :=
  ⟨rfl, rfl, rfl⟩

/-! ### Claim C5: failed vendor lookups are not cached -/

/-- Counterexample to C5 as stated: after a failed lookup nothing is stored in
the cache (it stays empty), and a later `getVendor` for the same mac
performs a further remote lookup — the claim asserts the empty string is
cached and no further lookup happens. -/
theorem c5_counterexample :
    (getVendor (fun _ => LookupResult.failure) [] "aabbccddeeff").2.1 = [] ∧
    (getVendor (fun _ => LookupResult.failure)
        ((getVendor (fun _ => LookupResult.failure) [] "aabbccddeeff").2.1)
        "aabbccddeeff").2.2 = 1 :=
  ⟨rfl, rfl⟩

/-- C5 (amended): on a vendor-cache miss the remote lookup collaborator is
invoked exactly once for that mac; on success the company name (or the
empty string when absent from the body) is both returned and stored under
that mac; on failure the empty string is returned (and assigned to the
device's vendor) but nothing is stored in the cache, so a later query for
the same mac performs a further remote lookup. -/
theorem c5_miss_invokes_once_failure_not_cached
    (lookup : String → LookupResult) (cache : VendorsCache) (mac : String)
    (hmiss : mapGet cache mac = none) :
    (getVendor lookup cache mac).2.2 = 1 ∧
    (∀ company, lookup mac = LookupResult.success company →
      getVendor lookup cache mac =
        (company.getD "", mapSet cache mac (company.getD ""), 1)) ∧
    (lookup mac = LookupResult.failure →
      getVendor lookup cache mac = ("", cache, 1)) := by
  unfold getVendor
  rw [hmiss]
  cases hl : lookup mac with
  | success company => simp
  | failure => simp

/-- Witness for C5 (amended) on an empty cache with a failing lookup. -/
theorem c5_witness :
    mapGet [] "aabbccddeeff" = none ∧
    (getVendor (fun _ => LookupResult.failure) [] "aabbccddeeff").2.2 = 1 ∧
    getVendor (fun _ => LookupResult.failure) [] "aabbccddeeff" =
      ("", [], 1) := by
  obtain ⟨h1, _, h3⟩ := c5_miss_invokes_once_failure_not_cached
    (fun _ => LookupResult.failure) [] "aabbccddeeff" rfl
  exact ⟨rfl, h1, h3 rfl⟩

/-! ### Claim C6: mac normalization -/

/-- Counterexample to C6 as stated: the Windows neighbor-table parser strips
only dashes and never lowercases — "AA:BB:CC:DD:EE:FF" survives with its
colons and "AA-BB-CC-DD-EE-FF" becomes "AABBCCDDEEFF", neither equal to the
claimed normal form "aabbccddeeff". -/
theorem c6_counterexample :
    getWindowsNetworkTableMap rawWinArpMixed optsTen =
      Except.ok
        [("10.0.0.2", "AA:BB:CC:DD:EE:FF"), ("10.0.0.3", "AABBCCDDEEFF")] ∧
    "AA:BB:CC:DD:EE:FF" ≠ "aabbccddeeff" ∧
    "AABBCCDDEEFF" ≠ "aabbccddeeff" :=
  ⟨rfl, by decide, by decide⟩

/-- C6 (amended): neighbor-table macs are normalized only by deleting the
platform separator — '-' on Windows, ':' on Linux — with letter case
preserved, and the vendor cache is keyed by the device's mac string exactly
as stored by the parser (a cache hit occurs precisely on that unmodified
key, with no remote invocation). -/
theorem c6_separator_only_normalization :
    (getWindowsNetworkTableMap rawWinArpMixed optsTen =
      Except.ok
        [("10.0.0.2", "AA:BB:CC:DD:EE:FF"), ("10.0.0.3", "AABBCCDDEEFF")]) ∧
    (getLinuxNetworkTableMap rawLinuxArp optsTen =
      Except.ok [("10.0.0.2", "AABBCCDDEEFF")]) ∧
    (∀ (lookup : String → LookupResult) (cache : VendorsCache) (m v : String),
      mapGet cache m = some v → getVendor lookup cache m = (v, cache, 0)) := by
  refine ⟨rfl, rfl, ?_⟩
  intro lookup cache m v hv
  unfold getVendor
  rw [hv]

/-- Witness for C6 (amended): a cache hit on the exact uppercase colon-form
key returns the cached vendor with zero remote invocations. -/
theorem c6_witness :
    mapGet [("AA:BB:CC:DD:EE:FF", "Acme")] "AA:BB:CC:DD:EE:FF" = some "Acme" ∧
    getVendor (fun _ => LookupResult.failure)
        [("AA:BB:CC:DD:EE:FF", "Acme")] "AA:BB:CC:DD:EE:FF" =
      ("Acme", [("AA:BB:CC:DD:EE:FF", "Acme")], 0) := by
  have h := c6_separator_only_normalization.2.2
    (fun _ => LookupResult.failure) [("AA:BB:CC:DD:EE:FF", "Acme")]
    "AA:BB:CC:DD:EE:FF" "Acme" rfl
  exact ⟨rfl, h⟩

/-! ### Claim C7: probe timeouts -/

/-- Counterexample to C7 as stated: with default options (`pingTimeoutMS`
2500 ms) every probe invocation carries the hard-coded 0.5 s (500 ms)
probe-timeout option, not the configured `pingTimeoutMS`: an environment
whose probe reports alive exactly when handed a 2500 ms timeout option
yields an empty scan, and every recorded probe call pairs the 500 ms probe
option with the 2500 ms race bound (500 ≠ 2500). -/
theorem c7_counterexample :
    ((scanLocalNetwork envProbeTimeoutSensitive [] optsTen).probeCalls.all
      (fun pc => pc.probeTimeoutMS == 500 && pc.raceTimeoutMS == 2500)) =
        true ∧
    (scanLocalNetwork envProbeTimeoutSensitive [] optsTen).probeCalls.length =
      255 ∧
    (500 : Nat) ≠ 2500 ∧
    scanDevices (scanLocalNetwork envProbeTimeoutSensitive [] optsTen) = [] := by
  refine ⟨by decide, rfl, by norm_num, by decide⟩

/-- C7 (amended): each probe is invoked with the fixed 0.5-second collaborator
timeout option while the whole per-address call is raced against the
configured `pingTimeoutMS`; the call yields a device exactly when the probe
reports alive and the race does not fire first, and every other outcome
(not-alive, probe error, race timeout) yields absence rather than an
error. -/
theorem c7_probe_fixed_timeout_absence (env : ScanEnv) (net : String)
    (raceMS i : Nat) :
    (pingCall env net raceMS i).2 =
      ⟨ipStr net i, pingProbeTimeoutMS, raceMS⟩ ∧
    pingProbeTimeoutMS = 500 ∧
    (pingCall env net raceMS i).1 =
      (if probeAlive env (ipStr net i) then
        some ⟨ipStr net i, none, none⟩
      else none) :=
  ⟨pingCall_snd env net raceMS i, rfl, pingCall_fst env net raceMS i⟩

/-! ### Claim C8: neighbor-table failure degrades -/

theorem vendorStep_no_mac (lookup : String → LookupResult)
    (cache : VendorsCache) (acc : VendorsCache × List String)
    (d : NetworkDevice) (h : d.mac = none) :
    vendorStep lookup cache acc d = acc := by
  simp [vendorStep, h]

theorem enrichDevice_no_mac (lookup : String → LookupResult)
    (cache : VendorsCache) (d : NetworkDevice) (h : d.mac = none) :
    enrichDevice lookup cache d = d := by
  simp [enrichDevice, h]

theorem vendorPhase_no_macs (lookup : String → LookupResult)
    (cache : VendorsCache) (devices : List NetworkDevice)
    (h : ∀ d ∈ devices, d.mac = none) :
    vendorPhase lookup cache devices = (devices, cache, []) := by
  unfold vendorPhase
  have hfold : ∀ (ds : List NetworkDevice) (acc : VendorsCache × List String),
      (∀ d ∈ ds, d.mac = none) → ds.foldl (vendorStep lookup cache) acc = acc := by
    intro ds
    induction ds with
    | nil => intro acc _; rfl
    | cons d ds ih =>
      intro acc hds
      rw [List.foldl_cons,
          vendorStep_no_mac lookup cache acc d (hds d (List.mem_cons_self _ _))]
      exact ih acc (fun x hx => hds x (List.mem_cons_of_mem _ hx))
  have hmap : devices.map (enrichDevice lookup cache) = devices := by
    rw [List.map_congr_left
      (fun d hd => enrichDevice_no_mac lookup cache d (h d hd))]
    exact List.map_id devices
  rw [hfold devices (cache, []) h, hmap]

/-- C8: if the neighbor-table read fails for any reason after probing, the
failure is swallowed: the scan still returns exactly the ping-derived device
list (same ips, same order), every returned device keeps `mac` — and hence
`vendor` — unset, no vendor lookup is attempted, and the vendor cache is
left as it was (after the optional requested clear). -/
theorem c8_arp_failure_degrades (env : ScanEnv) (cache : VendorsCache)
    (opts : ScanOptions) (p e : String)
    (hp : opts.localNetwork = some p) (h3 : (jsSplitSep '.' p).length = 3)
    (harp : getNetworkTableMap env (scanOptsFinal opts p) = Except.error e) :
    scanDevices (scanLocalNetwork env cache opts) =
      ((List.range 255).filter (fun i => probeAlive env (ipStr p i))).map
        (fun i => ⟨ipStr p i, none, none⟩) ∧
    (∀ d ∈ scanDevices (scanLocalNetwork env cache opts),
      d.mac = none ∧ d.vendor = none) ∧
    (scanLocalNetwork env cache opts).lookedUpMacs = [] ∧
    (scanLocalNetwork env cache opts).finalCache =
      (if opts.clearVendorsCache.getD false then [] else cache) := by
  have hb : 1 ≤ jsOr opts.beachesSize 50 := jsOr_pos _ _ (by omega)
  have hda : devicesAfterArp env (scanOptsFinal opts p) p
      (jsOr (some (jsOr opts.pingTimeoutMS 2500)) 0) (jsOr opts.beachesSize 50) =
      ((List.range 255).filter (fun i => probeAlive env (ipStr p i))).map
        (fun i => ⟨ipStr p i, none, none⟩) := by
    unfold devicesAfterArp
    rw [harp]
    exact sweep_filterMap env p _ _ hb
  have hnomac : ∀ d ∈
      devicesAfterArp env (scanOptsFinal opts p) p
        (jsOr (some (jsOr opts.pingTimeoutMS 2500)) 0)
        (jsOr opts.beachesSize 50), d.mac = none := by
    rw [hda]
    intro d hd
    obtain ⟨i, _, rfl⟩ := List.mem_map.mp hd
    rfl
  rw [scanLocalNetwork_valid env cache opts p hp h3]
  simp only [scanDevices]
  rw [vendorPhase_no_macs env.lookup _ _ hnomac]
  refine ⟨hda, ?_, rfl, rfl⟩
  rw [hda]
  intro d hd
  obtain ⟨i, _, rfl⟩ := List.mem_map.mp hd
  exact ⟨rfl, rfl⟩

/-- Witness for C8: the `arp` process fails, yet the device found by the ping
sweep is returned with `mac`/`vendor` unset and no lookup occurs. -/
theorem c8_witness :
    getNetworkTableMap envArpFail (scanOptsFinal optsTen "10.0.0") =
      Except.error "spawn arp ENOENT" ∧
    scanDevices (scanLocalNetwork envArpFail [] optsTen) =
      [⟨"10.0.0.1", none, none⟩] ∧
    (scanLocalNetwork envArpFail [] optsTen).lookedUpMacs = [] := by
  obtain ⟨hdevs, _, hmacs, _⟩ := c8_arp_failure_degrades envArpFail [] optsTen
    "10.0.0" "spawn arp ENOENT" rfl (by decide) rfl
  refine ⟨rfl, ?_, hmacs⟩
  rw [hdevs]
  decide

/-! ### Claim C9: cache reuse across calls and cache clearing -/

theorem vendorStep_fold_count_cached (lookup : String → LookupResult)
    (cache : VendorsCache) (m v : String) (hv : mapGet cache m = some v) :
    ∀ (ds : List NetworkDevice) (acc : VendorsCache × List String),
      acc.2.count m = 0 →
      ((ds.foldl (vendorStep lookup cache) acc).2).count m = 0 := by
  intro ds
  induction ds with
  | nil => intro acc h; exact h
  | cons d ds ih =>
    intro acc hacc
    rw [List.foldl_cons]
    apply ih
    unfold vendorStep
    cases hm : d.mac with
    | none => exact hacc
    | some mm =>
      by_cases h0 : mm = ""
      · simpa [h0] using hacc
      · by_cases hc : (mapGet cache mm).isSome
        · simpa [h0, hc] using hacc
        · have hne : mm ≠ m := by
            intro he
            subst he
            rw [hv] at hc
            simp at hc
          cases hl : lookup mm <;>
            simp [h0, hc, hl, List.count_append, List.count_singleton, hne,
              hacc]

theorem scan_no_lookup_of_cached (env : ScanEnv) (cache : VendorsCache)
    (opts : ScanOptions) (m v : String)
    (hclear : opts.clearVendorsCache.getD false = false)
    (hv : mapGet cache m = some v) :
    (scanLocalNetwork env cache opts).lookedUpMacs.count m = 0 := by
  unfold scanLocalNetwork
  cases hga : getNetworkAddress env.machineIp opts.localNetwork with
  | error e => simp [hga, hclear]
  | ok net =>
    simp only [hga, hclear, if_false, Bool.false_eq_true, vendorPhase]
    exact vendorStep_fold_count_cached env.lookup cache m v hv _ (cache, []) rfl

theorem scan_clear_ignores_input_cache (env : ScanEnv) (cache : VendorsCache)
    (opts : ScanOptions) (hclear : opts.clearVendorsCache = some true) :
    scanLocalNetwork env cache opts = scanLocalNetwork env [] opts := by
  unfold scanLocalNetwork
  rw [hclear]
  rfl

theorem vendorStep_fold_snd_empty (lookup : String → LookupResult) :
    ∀ (ds : List NetworkDevice) (acc : VendorsCache × List String),
      (ds.foldl (vendorStep lookup []) acc).2 =
        acc.2 ++ (ds.filterMap NetworkDevice.mac).filter (fun m => m ≠ "") := by
  intro ds
  induction ds with
  | nil => intro acc; simp
  | cons d ds ih =>
    intro acc
    rw [List.foldl_cons]
    cases hm : d.mac with
    | none => simp [vendorStep, hm, ih]
    | some m =>
      by_cases h0 : m = ""
      · simp [vendorStep, hm, h0, ih]
      · have hc : mapGet [] m = none := rfl
        cases hl : lookup m <;>
          simp [vendorStep, hm, h0, hc, hl, ih, List.filterMap_cons,
            List.append_assoc]

/-- C9: (1) across two sequential calls, a mac present in the vendor cache
after call 1 (e.g. resolved there) triggers zero vendor-lookup invocations
in call 2 when `clearVendorsCache` is not set; (2) with
`clearVendorsCache = true` the entire cache is wiped before enrichment, so
the call behaves exactly as if the process-wide cache were empty; and (3)
under a cleared cache a mac carried by exactly one post-merge device —
in particular one cached by a prior call — is looked up exactly once. -/
theorem c9_cache_reuse_and_clear :
    (∀ (env1 env2 : ScanEnv) (cache : VendorsCache) (o1 o2 : ScanOptions)
       (m v : String),
      mapGet (scanLocalNetwork env1 cache o1).finalCache m = some v →
      o2.clearVendorsCache.getD false = false →
      (scanLocalNetwork env2 (scanLocalNetwork env1 cache o1).finalCache
        o2).lookedUpMacs.count m = 0) ∧
    (∀ (env : ScanEnv) (cache : VendorsCache) (opts : ScanOptions),
      opts.clearVendorsCache = some true →
      scanLocalNetwork env cache opts = scanLocalNetwork env [] opts) ∧
    (∀ (env : ScanEnv) (cache : VendorsCache) (opts : ScanOptions)
       (p m : String),
      opts.localNetwork = some p → (jsSplitSep '.' p).length = 3 →
      opts.clearVendorsCache = some true → m ≠ "" →
      ((devicesAfterArp env (scanOptsFinal opts p) p
          (jsOr (some (jsOr opts.pingTimeoutMS 2500)) 0)
          (jsOr opts.beachesSize 50)).filterMap NetworkDevice.mac).count m = 1 →
      (scanLocalNetwork env cache opts).lookedUpMacs.count m = 1) := by
  refine ⟨?_, ?_, ?_⟩
  · intro env1 env2 cache o1 o2 m v hv hclear
    exact scan_no_lookup_of_cached env2 _ o2 m v hclear hv
  · intro env cache opts hclear
    exact scan_clear_ignores_input_cache env cache opts hclear
  · intro env cache opts p m hp h3 hclear hm0 hcount
    rw [scan_clear_ignores_input_cache env cache opts hclear,
        scanLocalNetwork_valid env [] opts p hp h3]
    have hc0 : (if opts.clearVendorsCache.getD false then ([] : VendorsCache)
        else []) = [] := by
      cases opts.clearVendorsCache.getD false <;> rfl
    simp only [vendorPhase, hc0]
    rw [vendorStep_fold_snd_empty env.lookup _ ([], [])]
    simp only [List.nil_append]
    rw [List.count_filter (by simp [hm0])]
    exact hcount

/-- Witness for C9: the mac resolved in call 1 is not looked up again in a
second call reusing the cache, while a call with `clearVendorsCache = true`
and the mac pre-cached performs exactly one fresh lookup. -/
theorem c9_witness :
    (scanLocalNetwork envOneDevice
        (scanLocalNetwork envOneDevice [] optsTen).finalCache
        optsTen).lookedUpMacs.count "74da38eb1698" = 0 ∧
    (scanLocalNetwork envOneDevice [("74da38eb1698", "Acme")]
        optsTenClear).lookedUpMacs.count "74da38eb1698" = 1 := by
  obtain ⟨h1, _, h3⟩ := c9_cache_reuse_and_clear
  constructor
  · exact h1 envOneDevice envOneDevice [] optsTen optsTen "74da38eb1698"
      "Acme" (by decide) rfl
  · exact h3 envOneDevice [("74da38eb1698", "Acme")] optsTenClear "10.0.0"
      "74da38eb1698" rfl (by decide) rfl (by decide) (by decide)

/-! ### Claim C10: the options record -/

/-- Counterexample to C10 as stated: the caller-supplied options object is not
left unmodified — after the call its `queryVendor` has been overwritten to
`true` — and `queryVendorsTimeoutMS` is never filled with the claimed 60000
default (it stays `undefined`). -/
theorem c10_counterexample :
    (scanLocalNetwork envQuiet [] optsTenNoVendor).finalOptions ≠
      optsTenNoVendor ∧
    (scanLocalNetwork envQuiet [] optsTenNoVendor).finalOptions.queryVendor =
      some true ∧
    (scanLocalNetwork envQuiet []
      optsTenNoVendor).finalOptions.queryVendorsTimeoutMS = none :=
  ⟨by decide, rfl, rfl⟩

/-- C10 (amended): `scanLocalNetwork` mutates the caller-supplied options
record in place: `queryVendor` is unconditionally set to `true`,
`beachesSize` defaults to 50 and `pingTimeoutMS` to 2500 under JS falsy
semantics (`undefined` and `0` both default), `localNetwork` is overwritten
with the computed prefix when expansion succeeds and left untouched when
expansion throws, and `queryVendorsTimeoutMS` and `clearVendorsCache` are
never written (in particular no 60000 default exists). -/
theorem c10_options_mutated_in_place (env : ScanEnv) (cache : VendorsCache)
    (opts : ScanOptions) :
    (scanLocalNetwork env cache opts).finalOptions =
      { opts with
          queryVendor := some true
          beachesSize := some (jsOr opts.beachesSize 50)
          pingTimeoutMS := some (jsOr opts.pingTimeoutMS 2500)
          localNetwork :=
            match getNetworkAddress env.machineIp opts.localNetwork with
            | Except.ok net => some net
            | Except.error _ => opts.localNetwork } := by
  unfold scanLocalNetwork
  cases hga : getNetworkAddress env.machineIp opts.localNetwork with
  | error e => simp [hga]
  | ok net => simp [hga]

end LocalNetworkScan
